import Mathlib

/-!
Verification of the line-selection transform core of `vscode.line-select-quad`.

The repository ships two variants of the implementation:
* `src/extension.ts` — a plain variant of the resolver/transforms (its
  `fullLineRange` carries the degenerate-range guard);
* an unnamed sibling source file — the variant described by the design
  document, which adds the `hasPartialLineSelection` classification and the
  snap-without-step behaviour for partial selections, and restructures
  `fullLineRange` (dropping the degenerate guard from the full-lines path).

Both are embedded below: namespace `Impl` holds the classified variant
(the core the design document describes), namespace `ExtTs` holds the
`src/extension.ts` resolver.

Editor types are embedded shallowly: a document is the list of its line
text lengths; positions carry `Int` coordinates (JS numbers; the host
guarantees non-negative values since `vscode.Position` rejects negatives).
`TextDocument.lineAt` throws for a line outside `[0, lineCount)`; fallible
paths are therefore modelled with `Option`, `none` standing for a thrown
exception.
-/

/-- A position `(line, character)`, mirroring `vscode.Position`. -/
structure Pos where
  line : Int
  char : Int
deriving DecidableEq, Repr

/-- A selection as an `(anchor, active)` pair, mirroring `vscode.Selection`. -/
structure Selection where
  anchor : Pos
  active : Pos
deriving DecidableEq, Repr

/-- A document, reduced to what the core reads: the text length of each line. -/
structure Document where
  lineLengths : List Nat
deriving DecidableEq, Repr

/-- `doc.lineCount`. -/
def Document.lineCount (d : Document) : Int := d.lineLengths.length

/-- `doc.lineAt(l).text.length`; `none` models the exception `lineAt`
throws for a line outside `[0, lineCount)`. -/
def Document.lineLen? (d : Document) (l : Int) : Option Nat :=
  if 0 ≤ l then d.lineLengths.get? l.toNat else none

/-- `Position.isBefore`: strict lexicographic order on `(line, character)`. -/
def Pos.isBefore (p q : Pos) : Bool :=
  p.line < q.line || (p.line == q.line && p.char < q.char)

/-- `Selection.isEmpty`: anchor and active coincide. -/
def Selection.isEmpty (s : Selection) : Bool := s.anchor == s.active

/-- `Selection.start`: the earlier of anchor and active (the `vscode.Selection`
constructor orders the pair). -/
def Selection.start (s : Selection) : Pos :=
  if Pos.isBefore s.active s.anchor then s.active else s.anchor

/-- `Selection.end` (named `endPos` here since `end` is reserved):
the later of anchor and active. -/
def Selection.endPos (s : Selection) : Pos :=
  if Pos.isBefore s.active s.anchor then s.anchor else s.active

namespace Impl

/-- `posLineStart`: column 0 of `line` clamped into `[0, lineCount - 1]`. -/
def posLineStart (doc : Document) (line : Int) : Pos :=
  ⟨max 0 (min line (doc.lineCount - 1)), 0⟩

/-- `posEndForExclusiveLine`: column 0 of `exclLine` when it is a real line,
otherwise the end of the document (`lineAt(lineCount - 1).range.end`, which
throws — `none` — when the document has no lines). -/
def posEndForExclusiveLine (doc : Document) (exclLine : Int) : Option Pos :=
  if exclLine < doc.lineCount then some ⟨exclLine, 0⟩
  else (doc.lineLen? (doc.lineCount - 1)).map fun (len : Nat) =>
    ⟨doc.lineCount - 1, (len : Int)⟩

/-- `hasPartialLineSelection`: empty selections are never partial; otherwise
partial when the selection does not start at column 0, or (single line) stops
before the end of the line text, or (multi line) does not stop at column 0.
The single-line case reads `lineAt(pMin.line).text` and can throw. -/
def hasPartialLineSelection (doc : Document) (sel : Selection) : Option Bool :=
  if sel.isEmpty then some false
  else
    let pMin := if Pos.isBefore sel.start sel.endPos then sel.start else sel.endPos
    let pMax := if Pos.isBefore sel.start sel.endPos then sel.endPos else sel.start
    if pMin.char != 0 then some true
    else if pMin.line == pMax.line then
      (doc.lineLen? pMin.line).map fun (len : Nat) =>
        decide (pMax.char < (len : Int))
    else some (pMax.char != 0)

/-- `fullLineRange`: snap the selection to whole-line bounds, returning
`(topInclusiveLine, bottomExclusiveLine)`. A caret yields `[L, L + 1]`
clamped; a partial selection snaps outward over all affected lines; a
full-line selection returns its actual range. -/
def fullLineRange (doc : Document) (sel : Selection) : Option (Int × Int) :=
  if sel.isEmpty then
    some (sel.active.line, min (sel.active.line + 1) doc.lineCount)
  else
    let pMin := if Pos.isBefore sel.start sel.endPos then sel.start else sel.endPos
    let pMax := if Pos.isBefore sel.start sel.endPos then sel.endPos else sel.start
    match hasPartialLineSelection doc sel with
    | none => none
    | some true =>
        let topLine := pMin.line
        let bottomLine := pMax.line
        let actualBottomLine := if pMax.char == 0 then bottomLine - 1 else bottomLine
        some (topLine, actualBottomLine + 1)
    | some false => some (pMin.line, pMax.line)

/-- `buildSelection`: realize `[top, bottomExclusive)` as a selection; with
`anchorAtEnd` the anchor sits at the exclusive end (bottom pinned). -/
def buildSelection (doc : Document) (top bottomExclusive : Int)
    (anchorAtEnd : Bool) : Option Selection :=
  (posEndForExclusiveLine doc bottomExclusive).map fun endP =>
    let startPos := posLineStart doc top
    if anchorAtEnd then ⟨endP, startPos⟩ else ⟨startPos, endP⟩

/-- `clamp(n, lo, hi) = Math.max(lo, Math.min(hi, n))`. -/
def clamp (n lo hi : Int) : Int := max lo (min hi n)

/-- `outwardsDown`: expand downward by one line (pin top); a partial
selection is only snapped. -/
def outwardsDown (doc : Document) (sel : Selection) : Option Selection :=
  if sel.isEmpty then
    buildSelection doc sel.active.line (sel.active.line + 1) false
  else
    match hasPartialLineSelection doc sel with
    | none => none
    | some true =>
        match fullLineRange doc sel with
        | none => none
        | some (top, botEx) => buildSelection doc top botEx false
    | some false =>
        match fullLineRange doc sel with
        | none => none
        | some (top, botEx) =>
            buildSelection doc top
              (if botEx < doc.lineCount then botEx + 1 else botEx) false

/-- `inwardsDown`: shrink from the bottom by one line (pin top); a partial
selection is only snapped; a range of size at most one collapses to a caret
at the start of `top`. -/
def inwardsDown (doc : Document) (sel : Selection) : Option Selection :=
  match hasPartialLineSelection doc sel with
  | none => none
  | some true =>
      match fullLineRange doc sel with
      | none => none
      | some (top, botEx) => buildSelection doc top botEx false
  | some false =>
      match fullLineRange doc sel with
      | none => none
      | some (top, botEx) =>
          if botEx - top ≤ 1 then
            let caret := posLineStart doc top
            some ⟨caret, caret⟩
          else buildSelection doc top (botEx - 1) false

/-- `outwardsUp`: expand upward by one line (pin bottom); a partial
selection is only snapped. -/
def outwardsUp (doc : Document) (sel : Selection) : Option Selection :=
  if sel.isEmpty then
    buildSelection doc sel.active.line (sel.active.line + 1) true
  else
    match hasPartialLineSelection doc sel with
    | none => none
    | some true =>
        match fullLineRange doc sel with
        | none => none
        | some (top, botEx) => buildSelection doc top botEx true
    | some false =>
        match fullLineRange doc sel with
        | none => none
        | some (top, botEx) =>
            buildSelection doc (if 0 < top then top - 1 else top) botEx true

/-- `inwardsUp`: shrink from the top by one line (pin bottom); a partial
selection is only snapped; a range of size at most one collapses to a caret
at the start of the clamped bottom line. -/
def inwardsUp (doc : Document) (sel : Selection) : Option Selection :=
  match hasPartialLineSelection doc sel with
  | none => none
  | some true =>
      match fullLineRange doc sel with
      | none => none
      | some (top, botEx) => buildSelection doc top botEx true
  | some false =>
      match fullLineRange doc sel with
      | none => none
      | some (top, botEx) =>
          if botEx - top ≤ 1 then
            let bottomLine := clamp (botEx - 1) 0 (doc.lineCount - 1)
            let caret := posLineStart doc bottomLine
            some ⟨caret, caret⟩
          else buildSelection doc (top + 1) botEx true

end Impl

namespace ExtTs

/-- `fullLineRange` of `src/extension.ts`: same snapping, but with the
degenerate guard (`if (bottomExclusive <= top) return [top, min(top+1,
lineCount)]`) and without the partial classification. Total: it reads no
line text. -/
def fullLineRange (doc : Document) (sel : Selection) : Int × Int :=
  if sel.isEmpty then
    (sel.active.line, min (sel.active.line + 1) doc.lineCount)
  else
    let pMin := if Pos.isBefore sel.start sel.endPos then sel.start else sel.endPos
    let pMax := if Pos.isBefore sel.start sel.endPos then sel.endPos else sel.start
    let top := pMin.line
    let bottomExclusive :=
      if pMax.char == 0 then pMax.line else min (pMax.line + 1) doc.lineCount
    if bottomExclusive ≤ top then (top, min (top + 1) doc.lineCount)
    else (top, bottomExclusive)

end ExtTs

/-! ## Spec-side predicates -/

/-- A position lying on a real line of the document (the host editor only
hands out such positions: `vscode.Position` rejects negative coordinates and
host selections address existing lines). -/
def validPos (doc : Document) (p : Pos) : Prop :=
  0 ≤ p.line ∧ p.line < doc.lineCount ∧ 0 ≤ p.char

/-- The end-of-document position: end of the last line's text (undefined for
a document with no lines). -/
def endOfDoc (doc : Document) : Option Pos :=
  (doc.lineLen? (doc.lineCount - 1)).map fun (len : Nat) =>
    ⟨doc.lineCount - 1, (len : Int)⟩

/-- A line-aligned selection: an empty caret at column 0 of a real line, or
a non-empty selection starting (in document order) at column 0 of a real
line and ending at column 0 of a real line or exactly at end-of-document. -/
def lineAligned (doc : Document) (s : Selection) : Prop :=
  (s.anchor = s.active ∧ s.active.char = 0 ∧
    0 ≤ s.active.line ∧ s.active.line < doc.lineCount) ∨
  (s.anchor ≠ s.active ∧ s.start.char = 0 ∧
    0 ≤ s.start.line ∧ s.start.line < doc.lineCount ∧
    ((s.endPos.char = 0 ∧ 0 ≤ s.endPos.line ∧ s.endPos.line < doc.lineCount) ∨
      endOfDoc doc = some s.endPos))

/-! ## Claim theorems -/

/-- C2: the claim says `fullLineRange` always returns `top < bottomExclusive`,
widening a degenerate result. The classified implementation violates this: on
a one-line document (line length 3), the selection `(0,0)-(0,3)` — a single
full line addressed by its end-of-line text — is classified non-partial and
resolves to `(0, 0)` with `bottomExclusive = top` and no widening, while the
`src/extension.ts` resolver (whose guard the claim describes) returns `(0, 1)`. -/
theorem fullLineRange_degenerate_no_guard :
    Impl.fullLineRange ⟨[3]⟩ ⟨⟨0, 0⟩, ⟨0, 3⟩⟩ = some (0, 0) ∧
    ExtTs.fullLineRange ⟨[3]⟩ ⟨⟨0, 0⟩, ⟨0, 3⟩⟩ = (0, 1) ∧
    ¬ (0 : Int) < 0 := by
  refine ⟨by decide, by decide, by decide⟩

/-- C3: the claim says the `-up` transforms keep the bottom of the selection
fixed when not collapsing. Violation: on a three-line document the selection
`(1,0)-(1,3)` covers exactly line 1, yet `outwardsUp` returns the non-empty
selection `(1,0)-(0,0)`, which covers only line 0 — the bottom moved up a
line (the degenerate `(1,1)` range from `fullLineRange` lost the last line). -/
theorem outwardsUp_moves_bottom_on_degenerate :
    Impl.outwardsUp ⟨[3, 3, 3]⟩ ⟨⟨1, 0⟩, ⟨1, 3⟩⟩ =
      some ⟨⟨1, 0⟩, ⟨0, 0⟩⟩ ∧
    Selection.isEmpty ⟨⟨1, 0⟩, ⟨0, 0⟩⟩ = false := by
  refine ⟨by decide, by decide⟩

/-- C4: the claim says outward transforms never decrease the selected range.
Violation: on a one-line document the non-empty selection `(0,0)-(0,3)`
(the whole line's text) is mapped by `outwardsUp` to the empty caret
`(0,0)` — an outward call shrank a full line to nothing. -/
theorem outwardsUp_collapses_nonempty_selection :
    Impl.outwardsUp ⟨[3]⟩ ⟨⟨0, 0⟩, ⟨0, 3⟩⟩ = some ⟨⟨0, 0⟩, ⟨0, 0⟩⟩ ∧
    Selection.isEmpty ⟨⟨0, 0⟩, ⟨0, 3⟩⟩ = false ∧
    Selection.isEmpty ⟨⟨0, 0⟩, ⟨0, 0⟩⟩ = true := by
  refine ⟨by decide, by decide, by decide⟩

/-- C5 counterexample: on a two-line document (both lines of length 3), the
selection from `(0,0)` to the end-of-document position `(1,3)` — non-empty,
multi-line, starting at column 0, ending at the end of the non-empty last
line — is classified partial (`hasPartialLineSelection` returns `true`),
not full-lines as the claim states. -/
theorem end_of_doc_multiline_classified_part :
    Impl.hasPartialLineSelection ⟨[3, 3]⟩ ⟨⟨0, 0⟩, ⟨1, 3⟩⟩ = some true := by
  decide

/-- C6: the five-line walkthrough. On a document of 5 non-empty lines with a
caret at line 2: `outwardsDown` selects lines `[2,3)`; `outwardsDown` again
selects `[2,4)` with the anchor at the start of line 2; `inwardsUp` selects
`[3,4)`; `inwardsUp` again collapses to a caret at column 0 of line 3. -/
theorem five_line_walkthrough :
    Impl.outwardsDown ⟨[3, 3, 3, 3, 3]⟩ ⟨⟨2, 0⟩, ⟨2, 0⟩⟩ =
      some ⟨⟨2, 0⟩, ⟨3, 0⟩⟩ ∧
    Impl.outwardsDown ⟨[3, 3, 3, 3, 3]⟩ ⟨⟨2, 0⟩, ⟨3, 0⟩⟩ =
      some ⟨⟨2, 0⟩, ⟨4, 0⟩⟩ ∧
    Impl.inwardsUp ⟨[3, 3, 3, 3, 3]⟩ ⟨⟨2, 0⟩, ⟨4, 0⟩⟩ =
      some ⟨⟨4, 0⟩, ⟨3, 0⟩⟩ ∧
    Impl.inwardsUp ⟨[3, 3, 3, 3, 3]⟩ ⟨⟨4, 0⟩, ⟨3, 0⟩⟩ =
      some ⟨⟨3, 0⟩, ⟨3, 0⟩⟩ ∧
    Selection.isEmpty ⟨⟨3, 0⟩, ⟨3, 0⟩⟩ = true := by
  refine ⟨by decide, by decide, by decide, by decide, by decide⟩

/-- C8 counterexample: on a document with `lineCount == 0`, `outwardsDown`
from a caret has no defined output — the end-of-document lookup
`lineAt(lineCount - 1)` is out of range (the claim says the transforms
degenerate gracefully to a caret instead). -/
theorem outwardsDown_undefined_on_empty_doc :
    Impl.outwardsDown ⟨[]⟩ ⟨⟨0, 0⟩, ⟨0, 0⟩⟩ = none := by
  decide

/-- C1: a non-empty selection classified partial is only snapped: each of the
four transforms returns exactly the selection built from the resolved
whole-line range with its pin side, with no grow or shrink step. -/
theorem transforms_only_snap_on_part_input (doc : Document) (sel : Selection)
    (r : Int × Int) (hne : sel.isEmpty = false)
    (hp : Impl.hasPartialLineSelection doc sel = some true)
    (hr : Impl.fullLineRange doc sel = some r) :
    Impl.outwardsUp doc sel = Impl.buildSelection doc r.1 r.2 true ∧
    Impl.inwardsUp doc sel = Impl.buildSelection doc r.1 r.2 true ∧
    Impl.outwardsDown doc sel = Impl.buildSelection doc r.1 r.2 false ∧
    Impl.inwardsDown doc sel = Impl.buildSelection doc r.1 r.2 false := by
  simp [Impl.outwardsUp, Impl.inwardsUp, Impl.outwardsDown, Impl.inwardsDown,
    hne, hp, hr]

/-- Witness for C1 at a concrete partial selection: characters 1–3 of line 0
on a two-line document snap to the full line `[0,1)` under all four
transforms. -/
theorem transforms_only_snap_on_part_input_witness :
    Impl.outwardsUp ⟨[3, 3]⟩ ⟨⟨0, 1⟩, ⟨0, 3⟩⟩ =
      Impl.buildSelection ⟨[3, 3]⟩ 0 1 true ∧
    Impl.inwardsUp ⟨[3, 3]⟩ ⟨⟨0, 1⟩, ⟨0, 3⟩⟩ =
      Impl.buildSelection ⟨[3, 3]⟩ 0 1 true ∧
    Impl.outwardsDown ⟨[3, 3]⟩ ⟨⟨0, 1⟩, ⟨0, 3⟩⟩ =
      Impl.buildSelection ⟨[3, 3]⟩ 0 1 false ∧
    Impl.inwardsDown ⟨[3, 3]⟩ ⟨⟨0, 1⟩, ⟨0, 3⟩⟩ =
      Impl.buildSelection ⟨[3, 3]⟩ 0 1 false :=
  transforms_only_snap_on_part_input ⟨[3, 3]⟩ ⟨⟨0, 1⟩, ⟨0, 3⟩⟩ (0, 1)
    (by decide) (by decide) (by decide)

/-- C10: for a non-empty, non-partial selection whose resolved range already
touches line 0, `outwardsUp` rebuilds the unchanged range `(0, botEx)` with
the bottom pinned — top never moves above line 0 and the bottom bound is
untouched. -/
theorem outwardsUp_noop_at_top (doc : Document) (sel : Selection) (b : Int)
    (hne : sel.isEmpty = false)
    (hp : Impl.hasPartialLineSelection doc sel = some false)
    (hr : Impl.fullLineRange doc sel = some (0, b)) :
    Impl.outwardsUp doc sel = Impl.buildSelection doc 0 b true := by
  simp [Impl.outwardsUp, hne, hp, hr]

/-- Witness for C10: lines `[0,1)` fully selected on a two-line document;
`outwardsUp` rebuilds the same range with the bottom pinned. -/
theorem outwardsUp_noop_at_top_witness :
    Impl.outwardsUp ⟨[3, 3]⟩ ⟨⟨0, 0⟩, ⟨1, 0⟩⟩ =
      Impl.buildSelection ⟨[3, 3]⟩ 0 1 true :=
  outwardsUp_noop_at_top ⟨[3, 3]⟩ ⟨⟨0, 0⟩, ⟨1, 0⟩⟩ 1
    (by decide) (by decide) (by decide)

/-- C5 as amended: a non-empty multi-line selection that starts at column 0
and ends at the end-of-document position with the last line non-empty is
classified partial (`hasPartialLineSelection` returns `true`, since the
multi-line test accepts only an end at column 0), not full-lines. -/
theorem end_of_doc_multiline_part_general (doc : Document) (sel : Selection)
    (n : Nat) (hne : sel.isEmpty = false)
    (hc0 : sel.start.char = 0)
    (hml : sel.start.line < sel.endPos.line)
    (hlen : doc.lineLen? (doc.lineCount - 1) = some n)
    (hend : sel.endPos = ⟨doc.lineCount - 1, (n : Int)⟩)
    (hn : 0 < n) :
    Impl.hasPartialLineSelection doc sel = some true := by
  have hb : Pos.isBefore sel.start sel.endPos = true := by
    simp only [Pos.isBefore, Bool.or_eq_true, decide_eq_true_eq]
    exact Or.inl hml
  have hneq : sel.start.line ≠ sel.endPos.line := ne_of_lt hml
  have hch : sel.endPos.char ≠ 0 := by
    rw [hend]
    simpa using hn.ne'
  simp [Impl.hasPartialLineSelection, hne, hb, hc0, hneq, hch]

/-- Witness for the amended C5 at the counterexample's concrete input. -/
theorem end_of_doc_multiline_part_general_witness :
    Impl.hasPartialLineSelection ⟨[3, 3]⟩ ⟨⟨0, 0⟩, ⟨1, 3⟩⟩ = some true :=
  end_of_doc_multiline_part_general ⟨[3, 3]⟩ ⟨⟨0, 0⟩, ⟨1, 3⟩⟩ 3
    (by decide) (by decide) (by decide) (by decide) (by decide) (by decide)

/-- Evaluation of `inwardsDown` on a non-partial selection whose resolved
range has size at most one: it collapses to a caret at column 0 of `top`. -/
theorem inwardsDown_collapse_eval (doc : Document) (sel : Selection)
    (t b : Int)
    (hp : Impl.hasPartialLineSelection doc sel = some false)
    (hr : Impl.fullLineRange doc sel = some (t, b))
    (hsz : b - t ≤ 1) (h0 : 0 ≤ t) (ht : t < doc.lineCount) :
    Impl.inwardsDown doc sel = some ⟨⟨t, 0⟩, ⟨t, 0⟩⟩ := by
  have hcl : Impl.posLineStart doc t = ⟨t, 0⟩ := by
    simp only [Impl.posLineStart, Pos.mk.injEq, and_true]
    omega
  simp [Impl.inwardsDown, hp, hr, hsz, hcl]

/-- Positions with equal coordinates are equal. -/
theorem pos_eq_of (p q : Pos) (h1 : p.line = q.line) (h2 : p.char = q.char) :
    p = q := by
  cases p
  cases q
  simp_all

/-- `isBefore` unfolded to a proposition. -/
theorem isBefore_eq_true_iff (p q : Pos) :
    Pos.isBefore p q = true ↔
      p.line < q.line ∨ (p.line = q.line ∧ p.char < q.char) := by
  simp only [Pos.isBefore, Bool.or_eq_true, Bool.and_eq_true, decide_eq_true_eq,
    beq_iff_eq]

/-- Negated form of `isBefore` as a proposition. -/
theorem isBefore_eq_false_iff (p q : Pos) :
    Pos.isBefore p q = false ↔
      ¬(p.line < q.line ∨ (p.line = q.line ∧ p.char < q.char)) := by
  rw [← Bool.not_eq_true]
  simp only [isBefore_eq_true_iff]

/-- `isBefore` is asymmetric. -/
theorem isBefore_asymm (p q : Pos) (h : Pos.isBefore p q = true) :
    Pos.isBefore q p = false := by
  rw [isBefore_eq_true_iff] at h
  rw [isBefore_eq_false_iff]
  omega

/-- Strictly earlier positions are distinct. -/
theorem ne_of_isBefore (p q : Pos) (h : Pos.isBefore p q = true) : p ≠ q := by
  rw [isBefore_eq_true_iff] at h
  intro he
  rw [he] at h
  omega

/-- Start/end/emptiness of the two selections over an ordered pair of
positions. -/
theorem startEnd_pair (a b : Pos) (h : Pos.isBefore a b = true) :
    Selection.start ⟨a, b⟩ = a ∧ Selection.endPos ⟨a, b⟩ = b ∧
    Selection.start ⟨b, a⟩ = a ∧ Selection.endPos ⟨b, a⟩ = b ∧
    Selection.isEmpty ⟨a, b⟩ = false ∧ Selection.isEmpty ⟨b, a⟩ = false := by
  have h' := isBefore_asymm a b h
  have hne := ne_of_isBefore a b h
  simp [Selection.start, Selection.endPos, Selection.isEmpty, h, h', hne,
    hne.symm]

/-- A non-empty selection's start is strictly before its end. -/
theorem isBefore_start_endPos (s : Selection) (hne : s.isEmpty = false) :
    Pos.isBefore s.start s.endPos = true := by
  simp only [Selection.isEmpty, beq_eq_false_iff_ne, ne_eq] at hne
  simp only [Selection.start, Selection.endPos]
  cases h : Pos.isBefore s.active s.anchor with
  | true => simpa [h] using h
  | false =>
      simp only [h, if_false, Bool.false_eq_true]
      rw [isBefore_eq_false_iff] at h
      rw [isBefore_eq_true_iff]
      have : ¬(s.anchor.line = s.active.line ∧ s.anchor.char = s.active.char) := by
        intro hc
        exact hne (pos_eq_of _ _ hc.1 hc.2)
      omega

/-- Classification of a column-0-to-column-0 multi-line selection:
not partial. -/
theorem hasPart_multi_full (doc : Document) (sel : Selection)
    (hne : sel.isEmpty = false) (hst0 : sel.start.char = 0)
    (hml : sel.start.line ≠ sel.endPos.line) (hch : sel.endPos.char = 0) :
    Impl.hasPartialLineSelection doc sel = some false := by
  have hb := isBefore_start_endPos sel hne
  simp [Impl.hasPartialLineSelection, hne, hb, hst0, hml, hch]

/-- Classification of a single-line selection from column 0 to the end of
the line text: not partial. -/
theorem hasPart_single_full (doc : Document) (sel : Selection) (n : Nat)
    (hne : sel.isEmpty = false) (hst0 : sel.start.char = 0)
    (heq : sel.start.line = sel.endPos.line)
    (hlen : doc.lineLen? sel.endPos.line = some n)
    (hch : ¬ sel.endPos.char < (n : Int)) :
    Impl.hasPartialLineSelection doc sel = some false := by
  have hb := isBefore_start_endPos sel hne
  simp [Impl.hasPartialLineSelection, hne, hb, hst0, heq, hlen, hch]

/-- `fullLineRange` on a non-empty, non-partial selection returns the raw
`(start.line, end.line)` pair. -/
theorem fLR_full (doc : Document) (sel : Selection)
    (hne : sel.isEmpty = false)
    (hp : Impl.hasPartialLineSelection doc sel = some false) :
    Impl.fullLineRange doc sel = some (sel.start.line, sel.endPos.line) := by
  have hb := isBefore_start_endPos sel hne
  simp [Impl.fullLineRange, hne, hb, hp]

/-- C7: any selection covering exactly one full line `L` — whether expressed
as `(L,0)-(L+1,0)` or as `(L,0)-(L,len L)` with `len L > 0`, in either
anchor orientation — is collapsed by `inwardsDown` to an empty caret at
column 0 of that same line `L`. -/
theorem inwardsDown_single_full_line_collapses (doc : Document) (L : Int)
    (n : Nat) (sel : Selection) (h0 : 0 ≤ L) (hL : L < doc.lineCount)
    (hshape :
      sel = ⟨⟨L, 0⟩, ⟨L + 1, 0⟩⟩ ∨ sel = ⟨⟨L + 1, 0⟩, ⟨L, 0⟩⟩ ∨
      (doc.lineLen? L = some n ∧ 0 < n ∧
        (sel = ⟨⟨L, 0⟩, ⟨L, (n : Int)⟩⟩ ∨ sel = ⟨⟨L, (n : Int)⟩, ⟨L, 0⟩⟩))) :
    Impl.inwardsDown doc sel = some ⟨⟨L, 0⟩, ⟨L, 0⟩⟩ := by
  have hab : Pos.isBefore ⟨L, 0⟩ ⟨L + 1, 0⟩ = true := by
    rw [isBefore_eq_true_iff]
    left
    show L < L + 1
    omega
  rcases hshape with rfl | rfl | ⟨hlen, hn, rfl | rfl⟩
  · obtain ⟨hs, he, _, _, hne, _⟩ := startEnd_pair _ _ hab
    have hp := hasPart_multi_full doc _ hne (by rw [hs]) (by rw [hs, he]; show (L : Int) ≠ L + 1; omega)
      (by rw [he])
    have hr := fLR_full doc _ hne hp
    rw [hs, he] at hr
    exact inwardsDown_collapse_eval doc _ L (L + 1) hp hr (by omega) h0 hL
  · obtain ⟨_, _, hs, he, _, hne⟩ := startEnd_pair _ _ hab
    have hp := hasPart_multi_full doc _ hne (by rw [hs]) (by rw [hs, he]; show (L : Int) ≠ L + 1; omega)
      (by rw [he])
    have hr := fLR_full doc _ hne hp
    rw [hs, he] at hr
    exact inwardsDown_collapse_eval doc _ L (L + 1) hp hr (by omega) h0 hL
  · have hab2 : Pos.isBefore ⟨L, 0⟩ ⟨L, (n : Int)⟩ = true := by
      rw [isBefore_eq_true_iff]
      right
      exact ⟨rfl, Int.natCast_pos.mpr hn⟩
    obtain ⟨hs, he, _, _, hne, _⟩ := startEnd_pair _ _ hab2
    have hp := hasPart_single_full doc _ n hne (by rw [hs]) (by rw [hs, he])
      (by rw [he]; exact hlen) (by rw [he]; exact lt_irrefl _)
    have hr := fLR_full doc _ hne hp
    rw [hs, he] at hr
    exact inwardsDown_collapse_eval doc _ L L hp hr (by omega) h0 hL
  · have hab2 : Pos.isBefore ⟨L, 0⟩ ⟨L, (n : Int)⟩ = true := by
      rw [isBefore_eq_true_iff]
      right
      exact ⟨rfl, Int.natCast_pos.mpr hn⟩
    obtain ⟨_, _, hs, he, _, hne⟩ := startEnd_pair _ _ hab2
    have hp := hasPart_single_full doc _ n hne (by rw [hs]) (by rw [hs, he])
      (by rw [he]; exact hlen) (by rw [he]; exact lt_irrefl _)
    have hr := fLR_full doc _ hne hp
    rw [hs, he] at hr
    exact inwardsDown_collapse_eval doc _ L L hp hr (by omega) h0 hL

/-- Witness for C7 on a concrete document: both one-full-line shapes at
line 1 of a three-line document collapse to the caret `(1,0)`. -/
theorem inwardsDown_single_full_line_collapses_witness :
    Impl.inwardsDown ⟨[3, 3, 3]⟩ ⟨⟨1, 0⟩, ⟨2, 0⟩⟩ =
      some ⟨⟨1, 0⟩, ⟨1, 0⟩⟩ ∧
    Impl.inwardsDown ⟨[3, 3, 3]⟩ ⟨⟨1, 3⟩, ⟨1, 0⟩⟩ =
      some ⟨⟨1, 0⟩, ⟨1, 0⟩⟩ :=
  ⟨inwardsDown_single_full_line_collapses ⟨[3, 3, 3]⟩ 1 3 ⟨⟨1, 0⟩, ⟨2, 0⟩⟩
      (by decide) (by decide) (Or.inl (by decide)),
    inwardsDown_single_full_line_collapses ⟨[3, 3, 3]⟩ 1 3 ⟨⟨1, 3⟩, ⟨1, 0⟩⟩
      (by decide) (by decide)
      (Or.inr (Or.inr ⟨by decide, by decide, Or.inr (by decide)⟩))⟩

/-- `lineLen?` succeeds exactly on lines of the document. -/
theorem lineLen?_isSome (doc : Document) (l : Int) (h0 : 0 ≤ l)
    (hl : l < doc.lineCount) : (doc.lineLen? l).isSome := by
  simp only [Document.lineLen?, if_pos h0]
  have hlt : l.toNat < doc.lineLengths.length := by
    simp only [Document.lineCount] at hl
    omega
  rw [List.get?_eq_get hlt]
  simp

/-- For a document with at least one line, `posEndForExclusiveLine` is
defined for every argument. -/
theorem posEnd_isSome (doc : Document) (e : Int) (h1 : 1 ≤ doc.lineCount) :
    (Impl.posEndForExclusiveLine doc e).isSome := by
  simp only [Impl.posEndForExclusiveLine]
  split
  · simp
  · obtain ⟨len, hlen⟩ := Option.isSome_iff_exists.mp
      (lineLen?_isSome doc (doc.lineCount - 1) (by omega) (by omega))
    simp [hlen]

/-- For a document with at least one line, `buildSelection` is defined for
every range and pin side. -/
theorem build_isSome (doc : Document) (t b : Int) (p : Bool)
    (h1 : 1 ≤ doc.lineCount) : (Impl.buildSelection doc t b p).isSome := by
  obtain ⟨e, he⟩ := Option.isSome_iff_exists.mp (posEnd_isSome doc b h1)
  simp [Impl.buildSelection, he]

/-- A selection's start and end are among its anchor and active. -/
theorem start_endPos_mem (s : Selection) :
    (s.start = s.anchor ∨ s.start = s.active) ∧
    (s.endPos = s.anchor ∨ s.endPos = s.active) := by
  cases h : Pos.isBefore s.active s.anchor <;>
    simp [Selection.start, Selection.endPos, h]

/-- For selections on real lines, the classification never throws. -/
theorem hasPart_isSome (doc : Document) (sel : Selection)
    (ha : validPos doc sel.anchor) (hb : validPos doc sel.active) :
    (Impl.hasPartialLineSelection doc sel).isSome := by
  have hmem := start_endPos_mem sel
  have hst : 0 ≤ sel.start.line ∧ sel.start.line < doc.lineCount := by
    rcases hmem.1 with h | h <;> rw [h] <;> exact ⟨by exact (by assumption : validPos doc _).1, by exact (by assumption : validPos doc _).2.1⟩
  have hen : 0 ≤ sel.endPos.line ∧ sel.endPos.line < doc.lineCount := by
    rcases hmem.2 with h | h <;> rw [h] <;> exact ⟨by exact (by assumption : validPos doc _).1, by exact (by assumption : validPos doc _).2.1⟩
  obtain ⟨l1, hl1⟩ := Option.isSome_iff_exists.mp
    (lineLen?_isSome doc sel.start.line hst.1 hst.2)
  obtain ⟨l2, hl2⟩ := Option.isSome_iff_exists.mp
    (lineLen?_isSome doc sel.endPos.line hen.1 hen.2)
  simp only [Impl.hasPartialLineSelection]
  split_ifs <;> simp [hl1, hl2]

/-- For selections on real lines, the resolver never throws. -/
theorem fLR_isSome (doc : Document) (sel : Selection)
    (ha : validPos doc sel.anchor) (hb : validPos doc sel.active) :
    (Impl.fullLineRange doc sel).isSome := by
  obtain ⟨bp, hbp⟩ := Option.isSome_iff_exists.mp (hasPart_isSome doc sel ha hb)
  simp only [Impl.fullLineRange]
  split
  · simp
  · rw [hbp]
    cases bp <;> simp

/-- C8 as amended: on a document with at least one line, all four transforms
have a defined output for every selection whose anchor and active sit on
real lines of the document. -/
theorem transforms_defined_on_valid_input (doc : Document) (sel : Selection)
    (h1 : 1 ≤ doc.lineCount)
    (ha : validPos doc sel.anchor) (hb : validPos doc sel.active) :
    (Impl.outwardsDown doc sel).isSome ∧ (Impl.inwardsDown doc sel).isSome ∧
    (Impl.outwardsUp doc sel).isSome ∧ (Impl.inwardsUp doc sel).isSome := by
  obtain ⟨bp, hbp⟩ := Option.isSome_iff_exists.mp (hasPart_isSome doc sel ha hb)
  obtain ⟨r, hr⟩ := Option.isSome_iff_exists.mp (fLR_isSome doc sel ha hb)
  obtain ⟨t, b⟩ := r
  have hbuild : ∀ (tt bb : Int) (pp : Bool),
      (Impl.buildSelection doc tt bb pp).isSome :=
    fun tt bb pp => build_isSome doc tt bb pp h1
  refine ⟨?_, ?_, ?_, ?_⟩
  · cases hE : sel.isEmpty
    · cases bp <;> simp [Impl.outwardsDown, hE, hbp, hr, hbuild]
    · simp [Impl.outwardsDown, hE, hbuild]
  · cases bp <;> simp only [Impl.inwardsDown, hbp, hr] <;>
      first
        | (split <;> simp [hbuild])
        | simp [hbuild]
  · cases hE : sel.isEmpty
    · cases bp <;> simp [Impl.outwardsUp, hE, hbp, hr, hbuild]
    · simp [Impl.outwardsUp, hE, hbuild]
  · cases bp <;> simp only [Impl.inwardsUp, hbp, hr] <;>
      first
        | (split <;> simp [hbuild])
        | simp [hbuild]

/-- Witness for the amended C8 on a concrete valid input. -/
theorem transforms_defined_on_valid_input_witness :
    (Impl.outwardsDown ⟨[3]⟩ ⟨⟨0, 1⟩, ⟨0, 2⟩⟩).isSome ∧
    (Impl.inwardsDown ⟨[3]⟩ ⟨⟨0, 1⟩, ⟨0, 2⟩⟩).isSome ∧
    (Impl.outwardsUp ⟨[3]⟩ ⟨⟨0, 1⟩, ⟨0, 2⟩⟩).isSome ∧
    (Impl.inwardsUp ⟨[3]⟩ ⟨⟨0, 1⟩, ⟨0, 2⟩⟩).isSome :=
  transforms_defined_on_valid_input ⟨[3]⟩ ⟨⟨0, 1⟩, ⟨0, 2⟩⟩ (by decide)
    ⟨by decide, by decide, by decide⟩ ⟨by decide, by decide, by decide⟩

/-- The clamped line-start position sits at column 0 of a real line. -/
theorem posLineStart_bounds (doc : Document) (t : Int)
    (h1 : 1 ≤ doc.lineCount) :
    (Impl.posLineStart doc t).char = 0 ∧ 0 ≤ (Impl.posLineStart doc t).line ∧
    (Impl.posLineStart doc t).line < doc.lineCount := by
  refine ⟨rfl, ?_, ?_⟩
  · show (0 : Int) ≤ max 0 (min t (doc.lineCount - 1))
    omega
  · show max 0 (min t (doc.lineCount - 1)) < doc.lineCount
    omega

/-- A caret pair at a clamped line start is line-aligned. -/
theorem caret_aligned (doc : Document) (t : Int) (h1 : 1 ≤ doc.lineCount) :
    lineAligned doc ⟨Impl.posLineStart doc t, Impl.posLineStart doc t⟩ := by
  obtain ⟨hc, hl0, hlc⟩ := posLineStart_bounds doc t h1
  exact Or.inl ⟨rfl, hc, hl0, hlc⟩

/-- Any two positions are equal or lexicographically ordered. -/
theorem isBefore_trichotomy (p q : Pos) :
    p = q ∨ Pos.isBefore p q = true ∨ Pos.isBefore q p = true := by
  rw [isBefore_eq_true_iff, isBefore_eq_true_iff]
  by_cases h1 : p.line = q.line
  · by_cases h2 : p.char = q.char
    · exact Or.inl (pos_eq_of _ _ h1 h2)
    · right
      omega
  · right
    omega

/-- Both orientations of an anchor/active pair over a column-0 start and a
suitable end position are line-aligned. -/
theorem aligned_both (doc : Document) (sp ep : Pos)
    (hsp : sp.char = 0 ∧ 0 ≤ sp.line ∧ sp.line < doc.lineCount)
    (hcase :
      sp = ep ∨
      (Pos.isBefore sp ep = true ∧
        ((ep.char = 0 ∧ 0 ≤ ep.line ∧ ep.line < doc.lineCount) ∨
          endOfDoc doc = some ep)) ∨
      (Pos.isBefore ep sp = true ∧ ep.char = 0 ∧ 0 ≤ ep.line ∧
        ep.line < doc.lineCount)) :
    lineAligned doc ⟨sp, ep⟩ ∧ lineAligned doc ⟨ep, sp⟩ := by
  rcases hcase with rfl | ⟨hord, hep⟩ | ⟨hord, hep⟩
  · exact ⟨Or.inl ⟨rfl, hsp.1, hsp.2.1, hsp.2.2⟩,
      Or.inl ⟨rfl, hsp.1, hsp.2.1, hsp.2.2⟩⟩
  · obtain ⟨hs1, he1, hs2, he2, _, _⟩ := startEnd_pair sp ep hord
    have hne := ne_of_isBefore sp ep hord
    constructor
    · exact Or.inr ⟨hne, by rw [hs1]; exact hsp.1, by rw [hs1]; exact hsp.2.1,
        by rw [hs1]; exact hsp.2.2, by rw [he1]; exact hep⟩
    · exact Or.inr ⟨hne.symm, by rw [hs2]; exact hsp.1,
        by rw [hs2]; exact hsp.2.1, by rw [hs2]; exact hsp.2.2,
        by rw [he2]; exact hep⟩
  · obtain ⟨hs1, he1, hs2, he2, _, _⟩ := startEnd_pair ep sp hord
    have hne := ne_of_isBefore ep sp hord
    constructor
    · exact Or.inr ⟨hne.symm, by rw [hs2]; exact hep.1,
        by rw [hs2]; exact hep.2.1, by rw [hs2]; exact hep.2.2,
        by rw [he2]; exact Or.inl ⟨hsp.1, hsp.2.1, hsp.2.2⟩⟩
    · exact Or.inr ⟨hne, by rw [hs1]; exact hep.1, by rw [hs1]; exact hep.2.1,
        by rw [hs1]; exact hep.2.2,
        by rw [he1]; exact Or.inl ⟨hsp.1, hsp.2.1, hsp.2.2⟩⟩

/-- Every selection `buildSelection` produces on a non-degenerate document
from a non-negative exclusive bound is line-aligned. -/
theorem build_aligned (doc : Document) (t b : Int) (p : Bool)
    (out : Selection) (h1 : 1 ≤ doc.lineCount) (hb0 : 0 ≤ b)
    (hout : Impl.buildSelection doc t b p = some out) :
    lineAligned doc out := by
  have hsp := posLineStart_bounds doc t h1
  simp only [Impl.buildSelection, Impl.posEndForExclusiveLine] at hout
  by_cases hblt : b < doc.lineCount
  · rw [if_pos hblt] at hout
    simp only [Option.map_some', Option.some.injEq] at hout
    have hboth : lineAligned doc ⟨Impl.posLineStart doc t, ⟨b, 0⟩⟩ ∧
        lineAligned doc ⟨(⟨b, 0⟩ : Pos), Impl.posLineStart doc t⟩ := by
      rcases isBefore_trichotomy (Impl.posLineStart doc t) ⟨b, 0⟩ with
        heq | hord | hord
      · exact aligned_both doc _ _ hsp (Or.inl heq)
      · exact aligned_both doc _ _ hsp
          (Or.inr (Or.inl ⟨hord, Or.inl ⟨rfl, hb0, hblt⟩⟩))
      · exact aligned_both doc _ _ hsp
          (Or.inr (Or.inr ⟨hord, rfl, hb0, hblt⟩))
    cases p
    · rw [← hout]
      exact hboth.1
    · rw [← hout]
      exact hboth.2
  · rw [if_neg hblt] at hout
    cases hl2 : doc.lineLen? (doc.lineCount - 1) with
    | none =>
        rw [hl2] at hout
        simp at hout
    | some len =>
        rw [hl2] at hout
        simp only [Option.map_some', Option.some.injEq] at hout
        have heod : endOfDoc doc =
            some ⟨doc.lineCount - 1, (len : Int)⟩ := by
          simp [endOfDoc, hl2]
        have hlen0 : (0 : Int) ≤ (len : Int) := Int.natCast_nonneg len
        have hboth : lineAligned doc
            ⟨Impl.posLineStart doc t, ⟨doc.lineCount - 1, (len : Int)⟩⟩ ∧
            lineAligned doc
            ⟨(⟨doc.lineCount - 1, (len : Int)⟩ : Pos),
              Impl.posLineStart doc t⟩ := by
          rcases isBefore_trichotomy (Impl.posLineStart doc t)
              ⟨doc.lineCount - 1, (len : Int)⟩ with heq | hord | hord
          · exact aligned_both doc _ _ hsp (Or.inl heq)
          · exact aligned_both doc _ _ hsp
              (Or.inr (Or.inl ⟨hord, Or.inr heod⟩))
          · exfalso
            rw [isBefore_eq_true_iff] at hord
            obtain ⟨hc, hl0, hlc⟩ := hsp
            simp only [] at hord
            omega
        cases p
        · rw [← hout]
          exact hboth.1
        · rw [← hout]
          exact hboth.2

/-- Ranges resolved from a selection with non-negative line coordinates are
non-negative. -/
theorem fLR_nonneg (doc : Document) (sel : Selection) (t b : Int)
    (ha : 0 ≤ sel.anchor.line) (hb : 0 ≤ sel.active.line)
    (h : Impl.fullLineRange doc sel = some (t, b)) : 0 ≤ t ∧ 0 ≤ b := by
  have hmem := start_endPos_mem sel
  have hs0 : 0 ≤ sel.start.line := by
    rcases hmem.1 with h' | h' <;> rw [h'] <;> assumption
  have he0 : 0 ≤ sel.endPos.line := by
    rcases hmem.2 with h' | h' <;> rw [h'] <;> assumption
  have hlc0 : (0 : Int) ≤ doc.lineCount := Int.natCast_nonneg _
  simp only [Impl.fullLineRange] at h
  split at h
  · simp only [Option.some.injEq, Prod.mk.injEq] at h
    omega
  · rcases hhp : Impl.hasPartialLineSelection doc sel with _ | bp <;>
      rw [hhp] at h
    · simp at h
    · have hpm : 0 ≤ (if Pos.isBefore sel.start sel.endPos then sel.start
          else sel.endPos).line := by
        split <;> assumption
      have hpx : 0 ≤ (if Pos.isBefore sel.start sel.endPos then sel.endPos
          else sel.start).line := by
        split <;> assumption
      cases bp
      · simp only [Option.some.injEq, Prod.mk.injEq] at h
        omega
      · simp only [Option.some.injEq, Prod.mk.injEq] at h
        obtain ⟨h1, h2⟩ := h
        split at h2 <;> omega

/-- `outwardsDown` only returns line-aligned selections. -/
theorem outwardsDown_aligned (doc : Document) (sel : Selection)
    (out : Selection) (h1 : 1 ≤ doc.lineCount)
    (ha : 0 ≤ sel.anchor.line) (hb : 0 ≤ sel.active.line)
    (hout : Impl.outwardsDown doc sel = some out) : lineAligned doc out := by
  simp only [Impl.outwardsDown] at hout
  by_cases hE : sel.isEmpty = true
  · rw [if_pos hE] at hout
    exact build_aligned doc _ _ _ out h1 (by omega) hout
  · rw [if_neg hE] at hout
    rcases hhp : Impl.hasPartialLineSelection doc sel with _ | bp <;>
      rw [hhp] at hout
    · exact Option.noConfusion hout
    · rcases hhr : Impl.fullLineRange doc sel with _ | ⟨t, b⟩ <;>
        rw [hhr] at hout
      · cases bp <;> exact Option.noConfusion hout
      · obtain ⟨ht0, hb0⟩ := fLR_nonneg doc sel t b ha hb hhr
        cases bp
        · have hout' : Impl.buildSelection doc t
              (if b < doc.lineCount then b + 1 else b) false = some out := hout
          exact build_aligned doc t _ false out h1 (by split <;> omega) hout'
        · have hout' : Impl.buildSelection doc t b false = some out := hout
          exact build_aligned doc t b false out h1 hb0 hout'

/-- `inwardsDown` only returns line-aligned selections. -/
theorem inwardsDown_aligned (doc : Document) (sel : Selection)
    (out : Selection) (h1 : 1 ≤ doc.lineCount)
    (ha : 0 ≤ sel.anchor.line) (hb : 0 ≤ sel.active.line)
    (hout : Impl.inwardsDown doc sel = some out) : lineAligned doc out := by
  simp only [Impl.inwardsDown] at hout
  rcases hhp : Impl.hasPartialLineSelection doc sel with _ | bp <;>
    rw [hhp] at hout
  · exact Option.noConfusion hout
  · rcases hhr : Impl.fullLineRange doc sel with _ | ⟨t, b⟩ <;>
      rw [hhr] at hout
    · cases bp <;> exact Option.noConfusion hout
    · obtain ⟨ht0, hb0⟩ := fLR_nonneg doc sel t b ha hb hhr
      cases bp
      · have hout' : (if b - t ≤ 1 then
            some (⟨Impl.posLineStart doc t, Impl.posLineStart doc t⟩ : Selection)
          else Impl.buildSelection doc t (b - 1) false) = some out := hout
        by_cases hsz : b - t ≤ 1
        · rw [if_pos hsz] at hout'
          injection hout' with h2
          rw [← h2]
          exact caret_aligned doc t h1
        · rw [if_neg hsz] at hout'
          exact build_aligned doc t (b - 1) false out h1 (by omega) hout'
      · have hout' : Impl.buildSelection doc t b false = some out := hout
        exact build_aligned doc t b false out h1 hb0 hout'

/-- `outwardsUp` only returns line-aligned selections. -/
theorem outwardsUp_aligned (doc : Document) (sel : Selection)
    (out : Selection) (h1 : 1 ≤ doc.lineCount)
    (ha : 0 ≤ sel.anchor.line) (hb : 0 ≤ sel.active.line)
    (hout : Impl.outwardsUp doc sel = some out) : lineAligned doc out := by
  simp only [Impl.outwardsUp] at hout
  by_cases hE : sel.isEmpty = true
  · rw [if_pos hE] at hout
    exact build_aligned doc _ _ _ out h1 (by omega) hout
  · rw [if_neg hE] at hout
    rcases hhp : Impl.hasPartialLineSelection doc sel with _ | bp <;>
      rw [hhp] at hout
    · exact Option.noConfusion hout
    · rcases hhr : Impl.fullLineRange doc sel with _ | ⟨t, b⟩ <;>
        rw [hhr] at hout
      · cases bp <;> exact Option.noConfusion hout
      · obtain ⟨ht0, hb0⟩ := fLR_nonneg doc sel t b ha hb hhr
        cases bp
        · have hout' : Impl.buildSelection doc
              (if 0 < t then t - 1 else t) b true = some out := hout
          exact build_aligned doc _ b true out h1 hb0 hout'
        · have hout' : Impl.buildSelection doc t b true = some out := hout
          exact build_aligned doc t b true out h1 hb0 hout'

/-- `inwardsUp` only returns line-aligned selections. -/
theorem inwardsUp_aligned (doc : Document) (sel : Selection)
    (out : Selection) (h1 : 1 ≤ doc.lineCount)
    (ha : 0 ≤ sel.anchor.line) (hb : 0 ≤ sel.active.line)
    (hout : Impl.inwardsUp doc sel = some out) : lineAligned doc out := by
  simp only [Impl.inwardsUp] at hout
  rcases hhp : Impl.hasPartialLineSelection doc sel with _ | bp <;>
    rw [hhp] at hout
  · exact Option.noConfusion hout
  · rcases hhr : Impl.fullLineRange doc sel with _ | ⟨t, b⟩ <;>
      rw [hhr] at hout
    · cases bp <;> exact Option.noConfusion hout
    · obtain ⟨ht0, hb0⟩ := fLR_nonneg doc sel t b ha hb hhr
      cases bp
      · have hout' : (if b - t ≤ 1 then
            some (⟨Impl.posLineStart doc
                (Impl.clamp (b - 1) 0 (doc.lineCount - 1)),
              Impl.posLineStart doc
                (Impl.clamp (b - 1) 0 (doc.lineCount - 1))⟩ : Selection)
          else Impl.buildSelection doc (t + 1) b true) = some out := hout
        by_cases hsz : b - t ≤ 1
        · rw [if_pos hsz] at hout'
          injection hout' with h2
          rw [← h2]
          exact caret_aligned doc _ h1
        · rw [if_neg hsz] at hout'
          exact build_aligned doc (t + 1) b true out h1 hb0 hout'
      · have hout' : Impl.buildSelection doc t b true = some out := hout
        exact build_aligned doc t b true out h1 hb0 hout'

/-- C9: on a document with at least one line, whenever a transform returns a
selection for an input with non-negative coordinates, that selection is
line-aligned: an empty caret at column 0 of a real line, or a non-empty
selection running from column 0 of a real line to column 0 of a real line
or to the exact end-of-document position. -/
theorem transforms_output_line_aligned (doc : Document) (sel : Selection)
    (h1 : 1 ≤ doc.lineCount)
    (ha : 0 ≤ sel.anchor.line) (hb : 0 ≤ sel.active.line) :
    (∀ out, Impl.outwardsDown doc sel = some out → lineAligned doc out) ∧
    (∀ out, Impl.inwardsDown doc sel = some out → lineAligned doc out) ∧
    (∀ out, Impl.outwardsUp doc sel = some out → lineAligned doc out) ∧
    (∀ out, Impl.inwardsUp doc sel = some out → lineAligned doc out) :=
  ⟨fun out hout => outwardsDown_aligned doc sel out h1 ha hb hout,
    fun out hout => inwardsDown_aligned doc sel out h1 ha hb hout,
    fun out hout => outwardsUp_aligned doc sel out h1 ha hb hout,
    fun out hout => inwardsUp_aligned doc sel out h1 ha hb hout⟩

/-- Witness for C9: the transform output on a one-line document from a caret
is the full-line selection up to end-of-document, and it is line-aligned. -/
theorem transforms_output_line_aligned_witness :
    lineAligned ⟨[3]⟩ (⟨⟨0, 0⟩, ⟨0, 3⟩⟩ : Selection) :=
  (transforms_output_line_aligned ⟨[3]⟩ ⟨⟨0, 0⟩, ⟨0, 0⟩⟩ (by decide)
    (by decide) (by decide)).1 ⟨⟨0, 0⟩, ⟨0, 3⟩⟩ (by decide)
